import Mathlib

/-!
# Verification of the power-set-state-machine transition machinery

A shallow embedding of the Rust crates `pssm_core` / `sems_core` (and the
`pssm_dictionary` / `sems_dictionary` collaborators): a typed key-value store
keyed by fact identifier, parameter/result binding for transitions,
transition composition (`and_then` / `combine_requirements`), the state
machine that guards execution by requirement checking, and the hierarchical
transition dictionary.

Rust's `TypeId` is modelled by `Id := Nat`.  A `Box<dyn Any>` payload is
modelled by `Dyn`, a value carrying its dynamic type tag `tid` together with
a `Nat` encoding of the payload.  The `HashMap<Id, Box<dyn Any>>` state is
modelled as an association list with unique keys (the `HashMap` invariant is
carried as a `Nodup` hypothesis where it matters).  Rust panics (`expect`)
are modelled as `Except.error` carrying the panic message; recoverable
`Result::Err` values likewise carry the source's error strings.
-/

set_option maxHeartbeats 1000000

namespace PSSM

/-- `type Id = TypeId;` (sems_core/src/lib.rs): fact identifiers. -/
abbrev Id := Nat

/-- A `Box<dyn Any>` payload: dynamic type tag plus an encoded value.
`downcast::<T>()` succeeds exactly when `tid` equals `T`'s identifier. -/
structure Dyn where
  tid : Id
  val : Nat
deriving DecidableEq, Repr

/-- `type State = HashMap<Id, Box<dyn Any>>;` modelled as an association
list (unique-key invariant carried separately). -/
abbrev State := List (Id × Dyn)

/-- `HashMap::contains_key`. -/
def containsId (s : State) (id : Id) : Bool :=
  s.any (fun kv => kv.1 = id)

/-- `HashMap::insert` (overwrite-by-identifier): replace the entry for the
key when present, otherwise add one. -/
def insertId (s : State) (id : Id) (d : Dyn) : State :=
  match s with
  | [] => [(id, d)]
  | (k, v) :: rest =>
    if k = id then (id, d) :: rest else (k, v) :: insertId rest id d

/-- `HashMap::remove`: remove the entry for the key and return it together
with the remaining map; `none` when the key is absent (the map unchanged). -/
def removeId (s : State) (id : Id) : Option (Dyn × State) :=
  match s with
  | [] => none
  | (k, v) :: rest =>
    if k = id then some (v, rest)
    else (removeId rest id).map (fun ds => (ds.1, (k, v) :: ds.2))

/-- `StateMachine::set_truth`: `self.state.insert(T::id(), Box::new(element))`.
The boxed value's dynamic type is `T`, so the stored tag equals the key. -/
def setTruth (tid : Id) (v : Nat) (s : State) : State :=
  insertId s tid ⟨tid, v⟩

/-- `StateMachine::has_truth`: `self.state.contains_key(&T::id())`. -/
def hasTruth (tid : Id) (s : State) : Bool :=
  containsId s tid

/-!
## Parameter binding (pssm_core/src/transition/params.rs)

A parameter shape is a `Truth` type, an `Option<Truth>`, the unit type, or
a tuple of parameter shapes (the source spells out arities 1 through 8; the
list-shaped constructor covers them all with the same left-to-right
traversal).
-/

/-- The shape of a transition parameter list (`TransitionParam` impls). -/
inductive PShape where
  | truth (id : Id)
  | opt (id : Id)
  | unit
  | tup (elems : List PShape)

/-- The value extracted for a parameter shape. -/
inductive PVal where
  | truth (v : Nat)
  | opt (v : Option Nat)
  | unit
  | tup (vs : List PVal)

/-- `<T as TransitionParam>::take_from` for a `Truth` type `T`:
`state.remove(&T::id()).expect("State does not contain a required truth")
.downcast::<T>().expect("Invalid type stored for truth")`. -/
def takeTruth (id : Id) (s : State) : Except String (Nat × State) :=
  match removeId s id with
  | none => .error "State does not contain a required truth"
  | some (d, s') =>
    if d.tid = id then .ok (d.val, s')
    else .error "Invalid type stored for truth"

/-- `<Option<T> as TransitionParam>::take_from`:
`state.remove(&T::id()).map(|val| *val.downcast::<T>().expect("Invalid type stored for truth"))`. -/
def takeOptional (id : Id) (s : State) : Except String (Option Nat × State) :=
  match removeId s id with
  | none => .ok (none, s)
  | some (d, s') =>
    if d.tid = id then .ok (some d.val, s')
    else .error "Invalid type stored for truth"

mutual

/-- `TransitionParam::take_from`: extraction of a parameter shape from the
state, removing the facts it uses; tuples extract left to right. -/
def takeFromShape : PShape → State → Except String (PVal × State)
  | .truth id, s => (takeTruth id s).map (fun vs => (.truth vs.1, vs.2))
  | .opt id, s => (takeOptional id s).map (fun vs => (.opt vs.1, vs.2))
  | .unit, s => .ok (.unit, s)
  | .tup elems, s => (takeFromList elems s).map (fun vs => (.tup vs.1, vs.2))

/-- Left-to-right extraction of the elements of a tuple shape, one
sub-extraction per element. -/
def takeFromList : List PShape → State → Except String (List PVal × State)
  | [], s => .ok ([], s)
  | p :: rest, s => do
    let (v, s') ← takeFromShape p s
    let (vs, s'') ← takeFromList rest s'
    .ok (v :: vs, s'')

end

mutual

/-- `TransitionParam::collect_required`: the sequence of identifiers handed
to the collector, in left-to-right order.  A `Truth` parameter contributes
its identifier, `Option<T>` and `()` contribute nothing. -/
def collectRequired : PShape → List Id
  | .truth id => [id]
  | .opt _ => []
  | .unit => []
  | .tup elems => collectRequiredList elems

/-- Collection over the elements of a tuple shape, left to right. -/
def collectRequiredList : List PShape → List Id
  | [] => []
  | p :: rest => collectRequired p ++ collectRequiredList rest

end

/-- The set-builder loop inside `TransitionParam::required`: feed each
collected identifier into the accumulating set, failing when an identifier
is already present. -/
def requiredAux : List Id → Finset Id → Except String (Finset Id)
  | [], ids => .ok ids
  | id :: rest, ids =>
    if id ∈ ids then .error "Transition requires the same truth multiple times"
    else requiredAux rest (insert id ids)

/-- `TransitionParam::required`: the requirement set of a parameter shape,
or an error when the same identifier is collected more than once. -/
def PShape.required (p : PShape) : Except String (Finset Id) :=
  requiredAux (collectRequired p) ∅

/-!
## Result binding (pssm_core/src/transition/results.rs)
-/

/-- The shape of a transition result (`TransitionResult` impls): a `Truth`
type, an `Option` of a result, the unit type, or a tuple of results. -/
inductive RShape where
  | truth (id : Id)
  | opt (inner : RShape)
  | unit
  | tup (elems : List RShape)

/-- A produced result value, mirroring `RShape` with payloads attached. -/
inductive RVal where
  | truth (id : Id) (v : Nat)
  | opt (v : Option RVal)
  | unit
  | tup (vs : List RVal)

mutual

/-- `TransitionResult::insert_into`: insert the produced fact(s) into the
state.  A `Truth` value is stored under its own identifier (so the stored
tag equals the key), `Option` inserts only when present, `()` inserts
nothing, tuples insert left to right. -/
def insertInto : RVal → State → State
  | .truth id v, s => insertId s id ⟨id, v⟩
  | .opt none, s => s
  | .opt (some r), s => insertInto r s
  | .unit, s => s
  | .tup vs, s => insertIntoList vs s

/-- Left-to-right insertion of the elements of a tuple result. -/
def insertIntoList : List RVal → State → State
  | [], s => s
  | r :: rest, s => insertIntoList rest (insertInto r s)

end

mutual

/-- `TransitionResult::collect_produces`: the sequence of identifiers handed
to the collector.  A `Truth` result contributes its identifier; `Option`
and `()` contribute nothing; tuples collect left to right. -/
def collectProduces : RShape → List Id
  | .truth id => [id]
  | .opt _ => []
  | .unit => []
  | .tup elems => collectProducesList elems

/-- Collection over the elements of a tuple result shape, left to right. -/
def collectProducesList : List RShape → List Id
  | [] => []
  | r :: rest => collectProduces r ++ collectProducesList rest

end

/-- The set-builder loop inside `TransitionResult::produces`: feed each
collected identifier into the accumulating set, failing when an identifier
is already present. -/
def producesAux : List Id → Finset Id → Except String (Finset Id)
  | [], ids => .ok ids
  | id :: rest, ids =>
    if id ∈ ids then .error "Transition produces the same id multiple times."
    else producesAux rest (insert id ids)

/-- `TransitionResult::produces`: the production set of a result shape, or
an error when the same identifier would be produced more than once. -/
def RShape.produces (r : RShape) : Except String (Finset Id) :=
  producesAux (collectProduces r) ∅

/-!
## Transitions (pssm_core/src/transition/mod.rs)

All three Rust variants (`Transition`, `TransitionMut`, `TransitionOnce`)
carry the same data — a procedure over the state plus the derived
requirement and production sets — and differ only in the ownership regime
of the closure, which has no observable effect on a single run.  One record
models them.  The procedure returns `Except String State`, with `.error`
modelling a panic inside extraction (`expect`).
-/

/-- A transition: procedure, requirement set, production set. -/
structure Transition where
  func : State → Except String State
  requires : Finset Id
  produces : Finset Id

/-!
## Conversion of functions into transitions
(pssm_core/src/transition/into.rs, intomut.rs, intoonce.rs)

The conversion impls present under `src/` for `pssm_core` predate the
`produces` field of `transition/mod.rs` (they call the two-argument
`TransitionMut::new`, which no longer exists, and `into.rs` is absent
altogether), so the conversion consistent with `mod.rs` and `andthen.rs` is
modelled from the spec where it goes beyond them.

Modelled from the spec: the missing final `IntoTransition`/
`IntoTransitionMut`/`IntoTransitionOnce` impls of `pssm_core`.  Conversion
"1. Validates the output shape via Result Binding's production collection
(duplicate → fail). 2. Validates the input shape via Parameter Binding's
requirement collection (duplicate → fail). 3. Wraps the callable,
extraction, and insertion into one procedure: extract parameters, invoke
the callable, insert the result. 4. Stores the computed requirement and
production sets alongside the procedure."  The requirement-validation and
procedure-wrapping parts coincide with the `intomut.rs`/`intoonce.rs` files
under `src/` (which call `<shape>::required()?` and wrap
`take_from`/call/`insert_into`). -/
def intoTransition (p : PShape) (r : RShape) (f : PVal → RVal) :
    Except String Transition := do
  let produces ← r.produces
  let requires ← p.required
  .ok {
    func := fun s => do
      let (v, s') ← takeFromShape p s
      .ok (insertInto (f v) s')
    requires := requires
    produces := produces
  }

/-!
## Composition (pssm_core/src/transition/andthen.rs)
-/

/-- `combine_requirements` (pssm_core/src/transition/andthen.rs:7-23):
fail when some identifier required by both halves is not produced by the
first half; otherwise extend `requires1` with `requires2 − produces1` and
`produces2` with `produces1 − requires2`. -/
def combine_requirements (requires1 produces1 requires2 produces2 : Finset Id) :
    Except String (Finset Id × Finset Id) :=
  if ((requires1 ∩ requires2).filter (fun id => id ∉ produces1)).Nonempty then
    .error "Both transitions require the same parameter, but the first transition does not produce it."
  else
    .ok (requires1 ∪ (requires2 \ produces1), produces2 ∪ (produces1 \ requires2))

/-- `AndThen::and_then` on already-built transitions: merge the sets via
`combine_requirements`, and run the first procedure then the second, in
that fixed order, against the same state. -/
def andThen (t1 t2 : Transition) : Except String Transition := do
  let (requires, produces) ←
    combine_requirements t1.requires t1.produces t2.requires t2.produces
  .ok {
    func := fun s => do
      let s' ← t1.func s
      t2.func s'
    requires := requires
    produces := produces
  }

/-!
## The state machine (sems_core/src/statemachine.rs)
-/

/-- `StateMachine::can_run_transition` (and the identical `_mut`/`_once`
variants): every required identifier is a key of the state. -/
def canRunTransition (s : State) (t : Transition) : Bool :=
  decide (∀ id ∈ t.requires, containsId s id = true)

/-- `StateMachine::run` (statemachine.rs:213-224) on a built transition:
if every required identifier is present, run the procedure (outer `.error`
models a panic inside it); otherwise return
`Err("Missing a required truth")` with the state untouched. -/
def run (t : Transition) (s : State) : Except String (Except String Unit × State) :=
  if canRunTransition s t then
    (t.func s).map (fun s' => (.ok (), s'))
  else
    .ok (.error "Missing a required truth", s)

/-- `StateMachine::unset_truth`: `Option::<T>::take_from(&mut self.state)`. -/
def unsetTruth (tid : Id) (s : State) : Except String (Option Nat × State) :=
  takeOptional tid s

/-!
## Fact identity (sems_macro/src/lib.rs)

`#[derive(Truth)]` generates `fn id() -> Id { TypeId::of::<Self>() }`.  The
Rust compiler guarantees that `TypeId::of` assigns distinct identifiers to
distinct types and the same identifier to the same type for the process
lifetime; the guarantee is modelled by enumerating the program's declared
fact types (`struct A`, `struct B` of sems_core/src/main.rs) and giving
`TypeId::of` as an explicit encoding on them. -/
inductive RustType where
  | A
  | B
deriving DecidableEq, Repr

/-- `TypeId::of::<T>()`, as an explicit encoding of the declared types. -/
def typeIdOf : RustType → Id
  | .A => 0
  | .B => 1

/-- The derived `Truth::id()`: `TypeId::of::<Self>()`. -/
def truthId (t : RustType) : Id :=
  typeIdOf t

/-!
## The transition dictionary
(pssm_dictionary/src/lib.rs, sems_dictionary/src/dict.rs)

`Dictionary<K, V>` holds `entries : HashMap<K, V>` and
`folders : HashMap<K, Dictionary<K, V>>`; both maps are modelled as
association lists (unique-key invariant carried as a hypothesis).  Keys are
specialised to `String` and values to `Transition`
(`TransitionDictionary<'a, K> = Dictionary<K, TransitionMut<'a>>`). -/
inductive Dict where
  | node (entries : List (String × Transition)) (folders : List (String × Dict))

/-- The `entries` field. -/
def Dict.entries : Dict → List (String × Transition)
  | .node es _ => es

/-- The `folders` field. -/
def Dict.folders : Dict → List (String × Dict)
  | .node _ fs => fs

/-- `Dictionary::no_values`: `self.entries.is_empty()`. -/
def Dict.noValues (d : Dict) : Bool :=
  d.entries.isEmpty

/-- `Dictionary::no_folders`: `self.folders.is_empty()`. -/
def Dict.noFolders (d : Dict) : Bool :=
  d.folders.isEmpty

/-- `Dictionary::get`: `self.entries.get(key)`. -/
def Dict.getEntry (d : Dict) (k : String) : Option Transition :=
  (d.entries.find? (fun kv => kv.1 = k)).map (fun kv => kv.2)

/-- `Dictionary::get_folder`: `self.folders.get(key)`. -/
def Dict.getFolder (d : Dict) (k : String) : Option Dict :=
  (d.folders.find? (fun kf => kf.1 = k)).map (fun kf => kf.2)

mutual

/-- `TransitionDictionary::runnable_transitions`
(pssm_dictionary/src/lib.rs:77-97): keep the entries whose transition can
run in the given state; recurse into folders, skipping a folder whose
filtered form has no values and no folders. -/
def runnableTransitions : Dict → State → Dict
  | .node entries folders, s =>
    .node (entries.filter (fun kv => canRunTransition s kv.2))
      (runnableFolders folders s)

/-- The folder loop of `runnable_transitions`: a folder whose filtered form
has no values and no folders is skipped (`continue`), the others are kept
with their filtered form. -/
def runnableFolders : List (String × Dict) → State → List (String × Dict)
  | [], _ => []
  | (k, f) :: rest, s =>
    let fr := runnableTransitions f s
    if fr.noValues && fr.noFolders then runnableFolders rest s
    else (k, fr) :: runnableFolders rest s

end

/-- The store invariant maintained by normal operation: an entry stored
under a key carries that key as its dynamic type tag (insertion always
stores a value under its own type's identifier). -/
def wellTypedAt (s : State) (id : Id) : Prop :=
  ∀ kv ∈ s, kv.1 = id → kv.2.tid = id

instance (s : State) (id : Id) : Decidable (wellTypedAt s id) := by
  unfold wellTypedAt
  infer_instance

/-- A concrete no-op transition (used for concrete evaluations). -/
def idT : Transition :=
  { func := fun s => .ok s, requires := ∅, produces := ∅ }

/-!
## Helper lemmas
-/

theorem requiredAux_ok_of (ids : List Id) (acc : Finset Id)
    (hnd : ids.Nodup) (hdisj : ∀ id ∈ ids, id ∉ acc) :
    requiredAux ids acc = .ok (acc ∪ ids.toFinset) := by
  induction ids generalizing acc with
  | nil => simp [requiredAux]
  | cons a rest ih =>
    have hnd' := List.nodup_cons.mp hnd
    have hdisj' : ∀ id ∈ rest, id ∉ insert a acc := by
      intro id hid
      simp only [Finset.mem_insert, not_or]
      exact ⟨fun hcontr => hnd'.1 (hcontr ▸ hid), hdisj id (List.mem_cons_of_mem a hid)⟩
    simp only [requiredAux]
    rw [if_neg (hdisj a (by simp)), ih (insert a acc) hnd'.2 hdisj']
    congr 1
    ext x
    simp only [Finset.mem_union, Finset.mem_insert, List.toFinset_cons, List.mem_toFinset]
    tauto

theorem requiredAux_error_of (ids : List Id) (acc : Finset Id)
    (h : ¬ (ids.Nodup ∧ ∀ id ∈ ids, id ∉ acc)) :
    requiredAux ids acc = .error "Transition requires the same truth multiple times" := by
  induction ids generalizing acc with
  | nil => exact absurd ⟨List.nodup_nil, by simp⟩ h
  | cons a rest ih =>
    by_cases ha : a ∈ acc
    · simp [requiredAux, ha]
    · simp only [requiredAux, if_neg ha]
      apply ih
      rintro ⟨hnd, hdj⟩
      apply h
      refine ⟨List.nodup_cons.mpr ⟨?_, hnd⟩, ?_⟩
      · intro hmem
        exact (hdj a hmem) (Finset.mem_insert_self a acc)
      · intro id hid
        rcases List.mem_cons.mp hid with rfl | hid'
        · exact ha
        · intro hacc
          exact (hdj id hid') (Finset.mem_insert_of_mem hacc)

theorem required_eq_ok (p : PShape) (h : (collectRequired p).Nodup) :
    p.required = .ok (collectRequired p).toFinset := by
  have := requiredAux_ok_of (collectRequired p) ∅ h (by simp)
  simpa [PShape.required] using this

theorem required_eq_error (p : PShape) (h : ¬ (collectRequired p).Nodup) :
    p.required = .error "Transition requires the same truth multiple times" := by
  apply requiredAux_error_of
  rintro ⟨hnd, _⟩
  exact h hnd

theorem producesAux_ok_of (ids : List Id) (acc : Finset Id)
    (hnd : ids.Nodup) (hdisj : ∀ id ∈ ids, id ∉ acc) :
    producesAux ids acc = .ok (acc ∪ ids.toFinset) := by
  induction ids generalizing acc with
  | nil => simp [producesAux]
  | cons a rest ih =>
    have hnd' := List.nodup_cons.mp hnd
    have hdisj' : ∀ id ∈ rest, id ∉ insert a acc := by
      intro id hid
      simp only [Finset.mem_insert, not_or]
      exact ⟨fun hcontr => hnd'.1 (hcontr ▸ hid), hdisj id (List.mem_cons_of_mem a hid)⟩
    simp only [producesAux]
    rw [if_neg (hdisj a (by simp)), ih (insert a acc) hnd'.2 hdisj']
    congr 1
    ext x
    simp only [Finset.mem_union, Finset.mem_insert, List.toFinset_cons, List.mem_toFinset]
    tauto

theorem producesAux_error_of (ids : List Id) (acc : Finset Id)
    (h : ¬ (ids.Nodup ∧ ∀ id ∈ ids, id ∉ acc)) :
    producesAux ids acc = .error "Transition produces the same id multiple times." := by
  induction ids generalizing acc with
  | nil => exact absurd ⟨List.nodup_nil, by simp⟩ h
  | cons a rest ih =>
    by_cases ha : a ∈ acc
    · simp [producesAux, ha]
    · simp only [producesAux, if_neg ha]
      apply ih
      rintro ⟨hnd, hdj⟩
      apply h
      refine ⟨List.nodup_cons.mpr ⟨?_, hnd⟩, ?_⟩
      · intro hmem
        exact (hdj a hmem) (Finset.mem_insert_self a acc)
      · intro id hid
        rcases List.mem_cons.mp hid with rfl | hid'
        · exact ha
        · intro hacc
          exact (hdj id hid') (Finset.mem_insert_of_mem hacc)

theorem produces_eq_ok (r : RShape) (h : (collectProduces r).Nodup) :
    r.produces = .ok (collectProduces r).toFinset := by
  have := producesAux_ok_of (collectProduces r) ∅ h (by simp)
  simpa [RShape.produces] using this

theorem produces_eq_error (r : RShape) (h : ¬ (collectProduces r).Nodup) :
    r.produces = .error "Transition produces the same id multiple times." := by
  apply producesAux_error_of
  rintro ⟨hnd, _⟩
  exact h hnd

theorem removeId_eq_none_of_not_contains (s : State) (id : Id)
    (h : containsId s id = false) : removeId s id = none := by
  induction s with
  | nil => rfl
  | cons kv rest ih =>
    simp only [containsId, List.any_cons, Bool.or_eq_false_iff, decide_eq_false_iff_not] at h
    simp only [removeId, if_neg h.1, ih (by simpa [containsId] using h.2)]
    rfl

theorem contains_of_removeId_eq_some (s : State) (id : Id) (d : Dyn) (s' : State)
    (hnd : (s.map Prod.fst).Nodup) (h : removeId s id = some (d, s')) :
    containsId s' id = false := by
  induction s generalizing s' with
  | nil => simp [removeId] at h
  | cons kv rest ih =>
    obtain ⟨k, v⟩ := kv
    simp only [List.map_cons, List.nodup_cons] at hnd
    by_cases hk : k = id
    · rw [removeId, if_pos hk] at h
      injection h with h'
      cases h'
      subst hk
      simp only [containsId, List.any_eq_false, decide_eq_false_iff_not]
      intro x hx hcontr
      exact hnd.1 (of_decide_eq_true hcontr ▸ List.mem_map_of_mem Prod.fst hx)
    · rw [removeId, if_neg hk] at h
      cases hrec : removeId rest id with
      | none => rw [hrec] at h; simp at h
      | some ds =>
        obtain ⟨d', s''⟩ := ds
        rw [hrec] at h
        simp only [Option.map_some'] at h
        injection h with h'
        cases h'
        simp only [containsId, List.any_cons, Bool.or_eq_false_iff, decide_eq_false_iff_not]
        exact ⟨hk, by simpa [containsId] using ih s'' hnd.2 hrec⟩

theorem mem_keys_insertId (s : State) (id : Id) (d : Dyn) (x : Id)
    (h : x ∈ (insertId s id d).map Prod.fst) :
    x = id ∨ x ∈ s.map Prod.fst := by
  induction s with
  | nil =>
    simp only [insertId, List.map_cons, List.map_nil, List.mem_singleton] at h
    exact Or.inl h
  | cons kv rest ih =>
    obtain ⟨k, v⟩ := kv
    by_cases hk : k = id
    · rw [insertId, if_pos hk] at h
      simp only [List.map_cons, List.mem_cons] at h ⊢
      tauto
    · rw [insertId, if_neg hk] at h
      simp only [List.map_cons, List.mem_cons] at h ⊢
      rcases h with rfl | h'
      · tauto
      · rcases ih h' with rfl | hmem <;> tauto

theorem keys_insertId_nodup (s : State) (id : Id) (d : Dyn)
    (hnd : (s.map Prod.fst).Nodup) :
    ((insertId s id d).map Prod.fst).Nodup := by
  induction s with
  | nil => simp [insertId]
  | cons kv rest ih =>
    obtain ⟨k, v⟩ := kv
    simp only [List.map_cons, List.nodup_cons] at hnd
    by_cases hk : k = id
    · rw [insertId, if_pos hk]
      simp only [List.map_cons, List.nodup_cons]
      exact ⟨hk ▸ hnd.1, hnd.2⟩
    · rw [insertId, if_neg hk]
      simp only [List.map_cons, List.nodup_cons]
      refine ⟨?_, ih hnd.2⟩
      intro hcontr
      rcases mem_keys_insertId rest id d k hcontr with rfl | hmem
      · exact hk rfl
      · exact hnd.1 hmem

theorem removeId_insertId (s : State) (id : Id) (d : Dyn) :
    ∃ s', removeId (insertId s id d) id = some (d, s') := by
  induction s with
  | nil => exact ⟨[], by simp [insertId, removeId]⟩
  | cons kv rest ih =>
    obtain ⟨k, v⟩ := kv
    by_cases hk : k = id
    · exact ⟨rest, by simp [insertId, if_pos hk, removeId]⟩
    · obtain ⟨s', hs'⟩ := ih
      exact ⟨(k, v) :: s', by simp [insertId, if_neg hk, removeId, hs']⟩

theorem andThen_ok_func (t1 t2 t : Transition) (h : andThen t1 t2 = .ok t) :
    ∀ s, t.func s = (t1.func s).bind t2.func := by
  intro s
  unfold andThen at h
  cases hc : combine_requirements t1.requires t1.produces t2.requires t2.produces with
  | error e =>
    rw [hc] at h
    exact Except.noConfusion h
  | ok rp =>
    rw [hc] at h
    obtain ⟨rq, pd⟩ := rp
    have ht := Except.ok.inj h
    rw [← ht]
    rfl

theorem removeId_isSome_of_contains (s : State) (id : Id)
    (h : containsId s id = true) :
    ∃ d s', removeId s id = some (d, s') := by
  induction s with
  | nil => simp [containsId] at h
  | cons kv rest ih =>
    obtain ⟨k, v⟩ := kv
    by_cases hk : k = id
    · exact ⟨v, rest, by simp [removeId, hk]⟩
    · simp only [containsId, List.any_cons, Bool.or_eq_true, decide_eq_true_eq] at h
      rcases h with h | h

      · exact absurd h hk
      · obtain ⟨d, s', hs'⟩ := ih (by simpa [containsId] using h)
        exact ⟨d, (k, v) :: s', by simp [removeId, hk, hs']⟩

theorem removeId_mem (s : State) (id : Id) (d : Dyn) (s' : State)
    (h : removeId s id = some (d, s')) : (id, d) ∈ s := by
  induction s generalizing s' with
  | nil => simp [removeId] at h
  | cons kv rest ih =>
    obtain ⟨k, v⟩ := kv
    by_cases hk : k = id
    · rw [removeId, if_pos hk] at h
      injection h with h'
      cases h'
      subst hk
      exact List.mem_cons_self _ _
    · rw [removeId, if_neg hk] at h
      cases hrec : removeId rest id with
      | none => rw [hrec] at h; simp at h
      | some ds =>
        obtain ⟨d', s''⟩ := ds
        rw [hrec] at h
        simp only [Option.map_some'] at h
        injection h with h'
        cases h'
        exact List.mem_cons_of_mem _ (ih s'' hrec)

theorem find?_runnableFolders_none (fs : List (String × Dict)) (s : State) (k : String)
    (h : ∀ kf ∈ fs, kf.1 ≠ k) :
    (runnableFolders fs s).find? (fun kf => kf.1 = k) = none := by
  induction fs with
  | nil => rfl
  | cons kf rest ih =>
    obtain ⟨k₀, f₀⟩ := kf
    have hk : k₀ ≠ k := h (k₀, f₀) (List.mem_cons_self _ _)
    have hrest : ∀ kf ∈ rest, kf.1 ≠ k := fun kf hkf => h kf (List.mem_cons_of_mem _ hkf)
    simp only [runnableFolders]
    split
    · exact ih hrest
    · rw [List.find?_cons_of_neg _ (by simpa using hk)]
      exact ih hrest

theorem find?_runnableFolders_some (fs : List (String × Dict)) (s : State) (k : String)
    (p : String × Dict) (hnd : (fs.map Prod.fst).Nodup)
    (h : fs.find? (fun kf => kf.1 = k) = some p) :
    (runnableFolders fs s).find? (fun kf => kf.1 = k) =
      if (runnableTransitions p.2 s).noValues && (runnableTransitions p.2 s).noFolders
      then none else some (p.1, runnableTransitions p.2 s) := by
  induction fs with
  | nil => simp at h
  | cons kf rest ih =>
    obtain ⟨k₀, f₀⟩ := kf
    simp only [List.map_cons, List.nodup_cons] at hnd
    by_cases hk : k₀ = k
    · rw [List.find?_cons_of_pos _ (by simpa using hk)] at h
      injection h with h'
      subst h'
      simp only [runnableFolders]
      split
      · apply find?_runnableFolders_none
        intro kf hkf hcontr
        exact hnd.1 (hk ▸ hcontr ▸ List.mem_map_of_mem Prod.fst hkf)
      · rw [List.find?_cons_of_pos _ (by simpa using hk)]
    · rw [List.find?_cons_of_neg _ (by simpa using hk)] at h
      simp only [runnableFolders]
      split
      · exact ih hnd.2 h
      · rw [List.find?_cons_of_neg _ (by simpa using hk)]
        exact ih hnd.2 h

/-!
## Claim theorems
-/

/-- C1: composing two transitions fails (in `combine_requirements`, hence in
`and_then`) if and only if some identifier lies in `R1 ∩ R2` but not in
`P1`; when it succeeds, the merged requirement set is `R1 ∪ (R2 − P1)` and
the merged production set is `P2 ∪ (P1 − R2)`. -/
theorem combine_requirements_correct (r1 p1 r2 p2 : Finset Id) :
    ((∃ e, combine_requirements r1 p1 r2 p2 = .error e) ↔ ∃ id ∈ r1 ∩ r2, id ∉ p1)
    ∧ (∀ rq pd, combine_requirements r1 p1 r2 p2 = .ok (rq, pd) →
        rq = r1 ∪ (r2 \ p1) ∧ pd = p2 ∪ (p1 \ r2)) := by
  unfold combine_requirements
  by_cases h : ((r1 ∩ r2).filter (fun id => id ∉ p1)).Nonempty
  · rw [if_pos h]
    refine ⟨⟨fun _ => ?_, fun _ => ⟨_, rfl⟩⟩, fun rq pd hcontr => by simp at hcontr⟩
    obtain ⟨id, hid⟩ := h
    simp only [Finset.mem_filter] at hid
    exact ⟨id, hid.1, hid.2⟩
  · rw [if_neg h]
    constructor
    · constructor
      · rintro ⟨e, he⟩
        simp at he
      · rintro ⟨id, hmem, hnp⟩
        exact absurd ⟨id, Finset.mem_filter.mpr ⟨hmem, hnp⟩⟩ h
    · intro rq pd hok
      have := Except.ok.inj hok
      exact ⟨(congrArg Prod.fst this).symm, (congrArg Prod.snd this).symm⟩

/-- C1 witness: a concrete successful composition. -/
theorem combine_requirements_correct_witness :
    ({0, 2} : Finset Id) = {0} ∪ ({2} \ {1}) ∧ ({3, 1} : Finset Id) = {3} ∪ ({1} \ {2}) :=
  (combine_requirements_correct {0} {1} {2} {3}).2 {0, 2} {3, 1} rfl

/-- C2: `StateMachine::run` is guarded by presence of every required
identifier; when the guard holds it runs the transition's procedure and
returns its outcome as success, otherwise it returns the
missing-requirement error with the store exactly unchanged. -/
theorem run_guard_correct (t : Transition) (s : State) :
    (canRunTransition s t = true ↔ ∀ id ∈ t.requires, containsId s id = true)
    ∧ (canRunTransition s t = true →
        run t s = (t.func s).map (fun s' => (.ok (), s')))
    ∧ (canRunTransition s t = false →
        run t s = .ok (.error "Missing a required truth", s)) := by
  refine ⟨by simp [canRunTransition], fun h => ?_, fun h => ?_⟩
  · simp [run, h]
  · simp [run, h]

/-- C2 witness: a concrete run on an empty store with a missing
requirement returns the error and the unchanged (empty) store. -/
theorem run_guard_correct_witness :
    run { func := fun s => .ok s, requires := {0}, produces := ∅ } [] =
      .ok (.error "Missing a required truth", []) :=
  (run_guard_correct { func := fun s => .ok s, requires := {0}, produces := ∅ } []).2.2 rfl

/-- C5: an `Option<T>` parameter contributes no identifier to the
requirement collection (hence none to the requirement set), and
`take_optional` on a store not containing `T` returns the empty option
without failing and without mutating the store. -/
theorem option_param_correct (id : Id) :
    collectRequired (.opt id) = []
    ∧ (∀ s : State, containsId s id = false → takeOptional id s = .ok (none, s)) := by
  refine ⟨rfl, fun s h => ?_⟩
  simp [takeOptional, removeId_eq_none_of_not_contains s id h]

/-- C5 witness: taking an optional fact from the empty store. -/
theorem option_param_correct_witness :
    takeOptional 0 [] = .ok (none, ([] : State)) :=
  (option_param_correct 0).2 [] rfl

/-- C6: inserting a fact and then taking it returns the inserted value
itself, and afterwards the store no longer contains an entry for its
identifier (the unique-key `HashMap` invariant is the `Nodup` hypothesis). -/
theorem insert_take_roundtrip (s : State) (id : Id) (v : Nat)
    (hnd : (s.map Prod.fst).Nodup) :
    ∃ s', takeTruth id (setTruth id v s) = .ok (v, s') ∧ hasTruth id s' = false := by
  obtain ⟨s', hrm⟩ := removeId_insertId s id ⟨id, v⟩
  refine ⟨s', ?_, ?_⟩
  · simp [takeTruth, setTruth, hrm]
  · exact contains_of_removeId_eq_some _ _ _ _ (keys_insertId_nodup s id ⟨id, v⟩ hnd) hrm

/-- C6 witness: round trip through the empty store. -/
theorem insert_take_roundtrip_witness :
    ∃ s', takeTruth 0 (setTruth 0 5 []) = .ok (5, s') ∧ hasTruth 0 s' = false :=
  insert_take_roundtrip [] 0 5 (by simp)

/-- C3: converting a function whose output shape would produce the same
fact identifier more than once fails at conversion time with the
duplicate-production error, before any execution (no state is involved). -/
theorem intoTransition_duplicate_production (p : PShape) (r : RShape) (f : PVal → RVal)
    (h : ¬ (collectProduces r).Nodup) :
    intoTransition p r f = .error "Transition produces the same id multiple times." := by
  unfold intoTransition
  rw [produces_eq_error r h]
  rfl

/-- C3 witness: a function returning `(A, A)` is rejected. -/
theorem intoTransition_duplicate_production_witness :
    intoTransition .unit (.tup [.truth 0, .truth 0]) (fun _ => .unit) =
      .error "Transition produces the same id multiple times." :=
  intoTransition_duplicate_production .unit (.tup [.truth 0, .truth 0]) (fun _ => .unit)
    (by decide)

/-- C4: converting a function whose parameter list requires the same
non-optional fact identifier more than once fails at conversion time with
the duplicate-requirement error (given that its output shape passes the
production validation, which the spec runs first); the transition is never
created. -/
theorem intoTransition_duplicate_requirement (p : PShape) (r : RShape) (f : PVal → RVal)
    (hr : (collectProduces r).Nodup) (h : ¬ (collectRequired p).Nodup) :
    intoTransition p r f = .error "Transition requires the same truth multiple times" := by
  unfold intoTransition
  rw [produces_eq_ok r hr, required_eq_error p h]
  rfl

/-- C4 witness: a function of shape `fn(a: A, a2: A)` is rejected. -/
theorem intoTransition_duplicate_requirement_witness :
    intoTransition (.tup [.truth 0, .truth 0]) .unit (fun _ => .unit) =
      .error "Transition requires the same truth multiple times" :=
  intoTransition_duplicate_requirement (.tup [.truth 0, .truth 0]) .unit (fun _ => .unit)
    (by decide) (by decide)

/-- C7: composition is associative in effect: when both groupings compose
successfully, the two composites run the three procedures in the same
fixed order against the same state and yield the same outcome. -/
theorem andThen_assoc_effect (t1 t2 t3 t12 t23 tl tr : Transition) (s : State)
    (h12 : andThen t1 t2 = .ok t12) (hl : andThen t12 t3 = .ok tl)
    (h23 : andThen t2 t3 = .ok t23) (hr : andThen t1 t23 = .ok tr) :
    tl.func s = tr.func s := by
  rw [andThen_ok_func t12 t3 tl hl s, andThen_ok_func t1 t23 tr hr s,
    andThen_ok_func t1 t2 t12 h12 s]
  cases t1.func s with
  | error e => rfl
  | ok s1 =>
    show (t2.func s1).bind t3.func = t23.func s1
    rw [andThen_ok_func t2 t3 t23 h23 s1]

/-- C7 witness: both groupings of three concrete no-op transitions compose
and agree on the empty state. -/
theorem andThen_assoc_effect_witness :
    ∃ t12 t23 tl tr,
      andThen idT idT = .ok t12 ∧ andThen t12 idT = .ok tl ∧
      andThen idT idT = .ok t23 ∧ andThen idT t23 = .ok tr ∧
      tl.func [] = tr.func [] :=
  ⟨_, _, _, _, rfl, rfl, rfl, rfl,
    andThen_assoc_effect idT idT idT _ _ _ _ [] rfl rfl rfl rfl⟩

/-- C8: fact identity is injective on distinct fact types and stable
(repeated calls return the same identifier). -/
theorem truthId_injective_stable :
    (∀ t u : RustType, t ≠ u → truthId t ≠ truthId u) ∧ ∀ t, truthId t = truthId t := by
  refine ⟨?_, fun _ => rfl⟩
  intro t u h hcontr
  cases t <;> cases u <;> first
    | exact h rfl
    | exact absurd hcontr (by decide)

/-- C8 witness: the two declared fact types receive distinct identifiers. -/
theorem truthId_injective_stable_witness :
    truthId RustType.A ≠ truthId RustType.B :=
  truthId_injective_stable.1 RustType.A RustType.B (by decide)

/-- C9: `runnable_transitions` keeps exactly the entries whose transition
can run in the given state, recursively replaces each kept folder by its
own runnable subset, and omits a folder exactly when its filtered form has
no entries and no sub-folders. -/
theorem runnableTransitions_correct (d : Dict) (s : State)
    (hnd : (d.folders.map Prod.fst).Nodup) :
    (runnableTransitions d s).entries = d.entries.filter (fun kv => canRunTransition s kv.2)
    ∧ (∀ k, d.getFolder k = none → (runnableTransitions d s).getFolder k = none)
    ∧ (∀ k f, d.getFolder k = some f →
        (runnableTransitions d s).getFolder k =
          if (runnableTransitions f s).noValues && (runnableTransitions f s).noFolders
          then none else some (runnableTransitions f s)) := by
  obtain ⟨es, fs⟩ := d
  simp only [Dict.folders] at hnd
  refine ⟨rfl, ?_, ?_⟩
  · intro k hk
    simp only [Dict.getFolder, Dict.folders, Option.map_eq_none'] at hk
    have hne : ∀ kf ∈ fs, kf.1 ≠ k := by
      intro kf hkf hcontr
      have := List.find?_eq_none.mp hk kf hkf
      simp [hcontr] at this
    simp only [runnableTransitions, Dict.getFolder, Dict.folders, Option.map_eq_none']
    exact find?_runnableFolders_none fs s k hne
  · intro k f hk
    simp only [Dict.getFolder, Dict.folders] at hk
    cases hfind : fs.find? (fun kf => kf.1 = k) with
    | none => rw [hfind] at hk; simp at hk
    | some p =>
      rw [hfind] at hk
      simp only [Option.map_some'] at hk
      injection hk with hp2
      have hmain := find?_runnableFolders_some fs s k p hnd hfind
      simp only [runnableTransitions, Dict.getFolder, Dict.folders]
      rw [hmain, hp2]
      split
      · rfl
      · rfl

/-- C9 witness: a concrete dictionary on the empty store keeps the
requirement-free entry, keeps the folder still holding one, and prunes the
folder whose filtered form is empty. -/
theorem runnableTransitions_correct_witness :
    (runnableTransitions
        (.node [("go", idT), ("need", { func := fun s => .ok s, requires := {0}, produces := ∅ })]
          [("sub", .node [("go2", idT)] []),
           ("empty", .node [("need2", { func := fun s => .ok s, requires := {0}, produces := ∅ })] [])])
        []).getFolder "empty" =
      if (runnableTransitions
            (.node [("need2", { func := fun s => .ok s, requires := {0}, produces := ∅ })] [])
            []).noValues
          && (runnableTransitions
            (.node [("need2", { func := fun s => .ok s, requires := {0}, produces := ∅ })] [])
            []).noFolders
      then none
      else some (runnableTransitions
        (.node [("need2", { func := fun s => .ok s, requires := {0}, produces := ∅ })] []) []) :=
  (runnableTransitions_correct
    (.node [("go", idT), ("need", { func := fun s => .ok s, requires := {0}, produces := ∅ })]
      [("sub", .node [("go2", idT)] []),
       ("empty", .node [("need2", { func := fun s => .ok s, requires := {0}, produces := ∅ })] [])])
    [] (by decide)).2.2 "empty"
    (.node [("need2", { func := fun s => .ok s, requires := {0}, produces := ∅ })] []) rfl

/-- C10: a transition built from a function with parameter shape
`(Option<A>, A)` has requirement set `{A}`, so the run guard passes
whenever `A` is present; yet executing it reaches the fatal missing-truth
branch, because tuple extraction proceeds left to right and the optional
extraction removes `A` before the required extraction runs. -/
theorem optional_then_required_panics (a : Id) (r : RShape) (f : PVal → RVal)
    (t : Transition) (s : State)
    (hconv : intoTransition (.tup [.opt a, .truth a]) r f = .ok t)
    (hnd : (s.map Prod.fst).Nodup)
    (hs : containsId s a = true)
    (hwt : wellTypedAt s a) :
    t.requires = {a} ∧ canRunTransition s t = true ∧
    run t s = .error "State does not contain a required truth" := by
  have hreq : (PShape.tup [.opt a, .truth a]).required = .ok {a} := by
    simp [PShape.required, collectRequired, collectRequiredList, requiredAux]
  cases hp : r.produces with
  | error e =>
    unfold intoTransition at hconv
    rw [hp] at hconv
    exact Except.noConfusion hconv
  | ok P =>
    unfold intoTransition at hconv
    rw [hp, hreq] at hconv
    have ht := Except.ok.inj hconv
    obtain ⟨d, s1, hrm⟩ := removeId_isSome_of_contains s a hs
    have htid : d.tid = a := hwt (a, d) (removeId_mem s a d s1 hrm) rfl
    have hs1 : removeId s1 a = none :=
      removeId_eq_none_of_not_contains s1 a (contains_of_removeId_eq_some s a d s1 hnd hrm)
    have hfunc : t.func s = .error "State does not contain a required truth" := by
      rw [← ht]
      show (do
          let vs ← takeFromShape (.tup [.opt a, .truth a]) s
          Except.ok (insertInto (f vs.1) vs.2)) = _
      simp [takeFromShape, takeFromList, takeOptional, takeTruth, hrm, htid, hs1,
        Except.map, Except.bind, Bind.bind, Except.instMonad]
    have hcan : canRunTransition s t = true := by
      rw [← ht]
      simp [canRunTransition, hs]
    refine ⟨by rw [← ht], hcan, ?_⟩
    simp [run, hcan, hfunc, Except.map]

/-- C10 witness: the concrete shape `(Option<A>, A)` on a store holding
`A` passes the guard and panics during extraction. -/
theorem optional_then_required_panics_witness :
    ∃ t, intoTransition (.tup [.opt 0, .truth 0]) .unit (fun _ => .unit) = .ok t ∧
      (t.requires = {0} ∧ canRunTransition [(0, ⟨0, 5⟩)] t = true ∧
        run t [(0, ⟨0, 5⟩)] = .error "State does not contain a required truth") :=
  ⟨_, rfl, optional_then_required_panics 0 .unit (fun _ => .unit) _ [(0, ⟨0, 5⟩)]
    rfl (by simp) rfl (by decide)⟩

end PSSM
